import Mathlib

/-!
Verification of the layered catalog (library) core of `src/solid.py`.

Python strings are modelled as `List Char` (so that all operations reduce in
the kernel); `str.lower()` is modelled character-wise by `Char.toLower`,
which covers the ASCII range used throughout.  Python's unbounded `int` is
modelled by `Int`.  Mutable object state is passed explicitly: a store
method `self.m(args)` becomes a function from arguments and the current
state to the result and/or the next state.  A Python method that raises is
modelled with `Except`.
-/

/-- Model of `str.lower()` (character-wise ASCII case folding). -/
def pyLower (s : List Char) : List Char := s.map Char.toLower

/-- `Book` from `solid.py`: a frozen dataclass with title, author and year. -/
structure Book where
  title : List Char
  author : List Char
  year : Int
deriving DecidableEq

/-- `Book.__str__`: the formatted representation used by the logging layer. -/
def Book.str (b : Book) : List Char :=
  "Title: \"".data ++ b.title ++ "\", Author: ".data ++ b.author
    ++ ", Year: ".data ++ (toString b.year).data

/-- `LibraryInterface`: the abstract contract (add, remove, get) over an
explicit state type `σ`.  `remove_book` returns the Python `bool` together
with the next state. -/
structure LibraryInterface (σ : Type) where
  add_book : Book → σ → σ
  remove_book : List Char → σ → Bool × σ
  get_books : σ → List Book

/-- The scan of `InMemoryLibrary.remove_book`: find the first book whose
lowered title equals the lowered argument and delete it (`del self._books[idx]`);
report whether a deletion happened. -/
def removeFirst (t : List Char) : List Book → Bool × List Book
  | [] => (false, [])
  | b :: rest =>
    if pyLower b.title = pyLower t then (true, rest)
    else ((removeFirst t rest).1, b :: (removeFirst t rest).2)

/-- `InMemoryLibrary.add_book`: `self._books.append(book)`. -/
def InMemoryLibrary.add_book (b : Book) (books : List Book) : List Book :=
  books ++ [b]

/-- `InMemoryLibrary.remove_book`: case-insensitive first-match removal. -/
def InMemoryLibrary.remove_book (title : List Char) (books : List Book) :
    Bool × List Book :=
  removeFirst title books

/-- `InMemoryLibrary.get_books`: `return list(self._books)` — a snapshot whose
value equals the current sequence (the freshness of the copy is modelled at
the heap level below, by `heapGetBooks`). -/
def InMemoryLibrary.get_books (books : List Book) : List Book := books

/-- The `InMemoryLibrary` implementation bundled as a `LibraryInterface`
over its state, the ordered list `self._books`. -/
def InMemoryLibrary : LibraryInterface (List Book) :=
  ⟨InMemoryLibrary.add_book, InMemoryLibrary.remove_book, InMemoryLibrary.get_books⟩

section RemoveLemmas

lemma removeFirst_nil (t : List Char) : removeFirst t [] = (false, []) := rfl

lemma removeFirst_cons (t : List Char) (b : Book) (rest : List Book) :
    removeFirst t (b :: rest) =
      if pyLower b.title = pyLower t then (true, rest)
      else ((removeFirst t rest).1, b :: (removeFirst t rest).2) := rfl

/-- A prefix with no case-insensitive title match is skipped unchanged. -/
lemma removeFirst_append_no_match (t : List Char) (l1 rest : List Book)
    (h1 : ∀ b ∈ l1, pyLower b.title ≠ pyLower t) :
    removeFirst t (l1 ++ rest) = ((removeFirst t rest).1, l1 ++ (removeFirst t rest).2) := by
  induction l1 with
  | nil => simp
  | cons b l1 ih =>
    have hb : pyLower b.title ≠ pyLower t := h1 b (List.mem_cons_self b l1)
    have ih' := ih (fun b' hb' => h1 b' (List.mem_cons_of_mem b hb'))
    simp [removeFirst_cons, hb, ih']

/-- Removing with a matching head deletes exactly the head. -/
lemma removeFirst_match_head (t : List Char) (b : Book) (rest : List Book)
    (h : pyLower b.title = pyLower t) :
    removeFirst t (b :: rest) = (true, rest) := by
  simp [removeFirst_cons, h]

/-- Every element of the post-removal list was in the original list. -/
lemma removeFirst_subset (t : List Char) (s : List Book) (b : Book)
    (hb : b ∈ (removeFirst t s).2) : b ∈ s := by
  induction s with
  | nil => simp [removeFirst_nil] at hb
  | cons c rest ih =>
    by_cases hc : pyLower c.title = pyLower t
    · rw [removeFirst_match_head t c rest hc] at hb
      exact List.mem_cons_of_mem c hb
    · rw [removeFirst_cons] at hb
      simp only [hc, if_neg, if_false] at hb
      rcases List.mem_cons.mp hb with h | h
      · exact h ▸ List.mem_cons_self c rest
      · exact List.mem_cons_of_mem c (ih h)

end RemoveLemmas

/-- C6: For every sequence of `add` calls with no interleaved `remove`,
starting from any store state, `list()` on the in-memory store returns the
records in exactly insertion order: each `add` appends to the end, and
duplicates are permitted. -/
theorem add_preserves_order (s bs : List Book) :
    InMemoryLibrary.get_books (bs.foldl (fun st b => InMemoryLibrary.add_book b st) s)
      = InMemoryLibrary.get_books s ++ bs := by
  induction bs generalizing s with
  | nil => simp [InMemoryLibrary.get_books]
  | cons b bs ih =>
    simp only [List.foldl_cons, ih]
    simp [InMemoryLibrary.add_book, InMemoryLibrary.get_books]

/-- C5: `remove_book` is a total function (it can only return, never raise):
it returns `true` exactly when some stored record's title matches
case-insensitively, and `false` exactly when no record matches — the normal
"not found" outcome. -/
theorem remove_not_found_total (t : List Char) (s : List Book) :
    ((InMemoryLibrary.remove_book t s).1 = true ↔ ∃ b ∈ s, pyLower b.title = pyLower t)
    ∧ ((InMemoryLibrary.remove_book t s).1 = false ↔ ¬ ∃ b ∈ s, pyLower b.title = pyLower t) := by
  have key : (removeFirst t s).1 = true ↔ ∃ b ∈ s, pyLower b.title = pyLower t := by
    induction s with
    | nil => simp [removeFirst_nil]
    | cons c rest ih =>
      by_cases hc : pyLower c.title = pyLower t
      · rw [removeFirst_match_head t c rest hc]
        exact ⟨fun _ => ⟨c, List.mem_cons_self c rest, hc⟩, fun _ => rfl⟩
      · rw [removeFirst_cons]
        simp only [hc, if_neg, if_false]
        rw [ih]
        constructor
        · rintro ⟨b, hb, hmatch⟩
          exact ⟨b, List.mem_cons_of_mem c hb, hmatch⟩
        · rintro ⟨b, hb, hmatch⟩
          rcases List.mem_cons.mp hb with h | h
          · exact absurd (h ▸ hmatch) hc
          · exact ⟨b, h, hmatch⟩
  refine ⟨key, ?_⟩
  rw [← key]
  cases h : (removeFirst t s).1 <;> simp [InMemoryLibrary.remove_book, h]

/-- C2: In a store holding two or more records whose titles agree under case
folding, one `remove_book` call with any casing of that title returns `true`,
deletes exactly the earliest-inserted matching record, and every
later-inserted record with that title is still in the resulting list. -/
theorem first_match_removal (t : List Char) (l1 l2 : List Book) (b0 b1 : Book)
    (h1 : ∀ b ∈ l1, pyLower b.title ≠ pyLower t)
    (h0 : pyLower b0.title = pyLower t)
    (hb1 : b1 ∈ l2) (_hm1 : pyLower b1.title = pyLower t) :
    InMemoryLibrary.remove_book t (l1 ++ b0 :: l2) = (true, l1 ++ l2)
    ∧ b1 ∈ (InMemoryLibrary.remove_book t (l1 ++ b0 :: l2)).2 := by
  have hrw : removeFirst t (l1 ++ b0 :: l2) = (true, l1 ++ l2) := by
    rw [removeFirst_append_no_match t l1 (b0 :: l2) h1,
      removeFirst_match_head t b0 l2 h0]
  refine ⟨hrw, ?_⟩
  show b1 ∈ (removeFirst t (l1 ++ b0 :: l2)).2
  rw [hrw]
  exact List.mem_append_right l1 hb1

/-- Witness for C2: "Dune" inserted before "DUNE"; `remove_book "dune"`
removes only the first and keeps the second. -/
theorem first_match_removal_witness :
    InMemoryLibrary.remove_book ['d','u','n','e']
        [⟨['D','u','n','e'], ['H'], 1965⟩, ⟨['D','U','N','E'], ['H'], 1965⟩]
      = (true, [⟨['D','U','N','E'], ['H'], 1965⟩])
    ∧ (⟨['D','U','N','E'], ['H'], 1965⟩ : Book) ∈
        (InMemoryLibrary.remove_book ['d','u','n','e']
          [⟨['D','u','n','e'], ['H'], 1965⟩, ⟨['D','U','N','E'], ['H'], 1965⟩]).2 :=
  first_match_removal ['d','u','n','e'] [] [⟨['D','U','N','E'], ['H'], 1965⟩]
    ⟨['D','u','n','e'], ['H'], 1965⟩ ⟨['D','U','N','E'], ['H'], 1965⟩
    (by decide) (by decide) (by decide) (by decide)

/-- C10: frame property of `remove_book`: a `false` result leaves the list
completely unchanged; a `true` result deletes exactly the first
case-insensitive match, keeping every other record in its original relative
order. -/
theorem remove_frame (t : List Char) (s : List Book) :
    ((InMemoryLibrary.remove_book t s).1 = false → (InMemoryLibrary.remove_book t s).2 = s)
    ∧ ((InMemoryLibrary.remove_book t s).1 = true →
        ∃ l1 b l2, s = l1 ++ b :: l2
          ∧ (∀ b' ∈ l1, pyLower b'.title ≠ pyLower t)
          ∧ pyLower b.title = pyLower t
          ∧ (InMemoryLibrary.remove_book t s).2 = l1 ++ l2) := by
  show ((removeFirst t s).1 = false → (removeFirst t s).2 = s)
    ∧ ((removeFirst t s).1 = true →
        ∃ l1 b l2, s = l1 ++ b :: l2
          ∧ (∀ b' ∈ l1, pyLower b'.title ≠ pyLower t)
          ∧ pyLower b.title = pyLower t
          ∧ (removeFirst t s).2 = l1 ++ l2)
  induction s with
  | nil => exact ⟨fun _ => rfl, fun h => by simp [removeFirst_nil] at h⟩
  | cons c rest ih =>
    by_cases hc : pyLower c.title = pyLower t
    · rw [removeFirst_match_head t c rest hc]
      refine ⟨fun h => by simp at h, fun _ => ⟨[], c, rest, rfl, ?_, hc, rfl⟩⟩
      intro b' hb'
      simp at hb'
    · rw [removeFirst_cons]
      simp only [hc, if_neg, if_false]
      constructor
      · intro h
        rw [ih.1 h]
      · intro h
        obtain ⟨l1, b, l2, hsplit, hnone, hmatch, hrest⟩ := ih.2 h
        refine ⟨c :: l1, b, l2, by rw [hsplit]; rfl, ?_, hmatch, by rw [hrest]; rfl⟩
        intro b' hb'
        rcases List.mem_cons.mp hb' with h' | h'
        · exact h' ▸ hc
        · exact hnone b' h'

/-- Witness for C10: the `false` branch on an empty store, and the `true`
branch on a singleton matching store. -/
theorem remove_frame_witness :
    (InMemoryLibrary.remove_book ['x'] []).2 = []
    ∧ ∃ l1 b l2, [(⟨['D','u','n','e'], ['H'], 1965⟩ : Book)] = l1 ++ b :: l2
        ∧ (∀ b' ∈ l1, pyLower b'.title ≠ pyLower ['d','u','n','e'])
        ∧ pyLower b.title = pyLower ['d','u','n','e']
        ∧ (InMemoryLibrary.remove_book ['d','u','n','e']
            [⟨['D','u','n','e'], ['H'], 1965⟩]).2 = l1 ++ l2 :=
  ⟨(remove_frame ['x'] []).1 rfl,
    (remove_frame ['d','u','n','e'] [⟨['D','u','n','e'], ['H'], 1965⟩]).2 (by decide)⟩

/-- The comparison induced by the sort key of `SortedViewLibrary.get_books`:
`key=lambda b: (b.title.lower(), b.year)` — lowered title lexicographically
first, year breaking ties. -/
def bookLe (a b : Book) : Prop :=
  pyLower a.title < pyLower b.title
    ∨ (pyLower a.title = pyLower b.title ∧ a.year ≤ b.year)

instance : DecidableRel bookLe := fun a b => by
  unfold bookLe; infer_instance

instance : IsTotal Book bookLe where
  total a b := by
    unfold bookLe
    rcases lt_trichotomy (pyLower a.title) (pyLower b.title) with h | h | h
    · exact Or.inl (Or.inl h)
    · rcases le_total a.year b.year with hy | hy
      · exact Or.inl (Or.inr ⟨h, hy⟩)
      · exact Or.inr (Or.inr ⟨h.symm, hy⟩)
    · exact Or.inr (Or.inl h)

instance : IsTrans Book bookLe where
  trans a b c hab hbc := by
    unfold bookLe at *
    rcases hab with h1 | ⟨e1, y1⟩ <;> rcases hbc with h2 | ⟨e2, y2⟩
    · exact Or.inl (lt_trans h1 h2)
    · exact Or.inl (e2 ▸ h1)
    · exact Or.inl (e1 ▸ h2)
    · exact Or.inr ⟨e1.trans e2, le_trans y1 y2⟩

/-- The sort applied by `SortedViewLibrary.get_books`.  Python's `sorted` is
a stable sort by the key above; `List.insertionSort` is likewise stable, so
it computes the same permutation. -/
def sortBooks (bs : List Book) : List Book :=
  List.insertionSort bookLe bs

/-- `SortedViewLibrary`: delegates `add_book` and `remove_book` unchanged
and returns `get_books` sorted by (lowered title, year). -/
def SortedViewLibrary {σ : Type} (inner : LibraryInterface σ) : LibraryInterface σ where
  add_book := inner.add_book
  remove_book := inner.remove_book
  get_books s := sortBooks (inner.get_books s)

/-- One call of the `LibraryInterface` contract, for whole-sequence
equivalence statements. -/
inductive LibCall where
  | add (b : Book)
  | remove (t : List Char)
  | listAll

/-- The observable result of one `LibraryInterface` call: `add_book` returns
`None`, `remove_book` a boolean, `get_books` the snapshot. -/
inductive LibOut where
  | unit
  | removed (ok : Bool)
  | books (bs : List Book)
deriving DecidableEq

/-- Run one call against a library implementation. -/
def LibraryInterface.step {σ : Type} (L : LibraryInterface σ) (c : LibCall) (s : σ) :
    LibOut × σ :=
  match c with
  | .add b => (.unit, L.add_book b s)
  | .remove t => ((L.remove_book t s).1, (L.remove_book t s).2) |> fun r => (.removed r.1, r.2)
  | .listAll => (.books (L.get_books s), s)

/-- Run a call sequence, collecting the outputs and the final state. -/
def LibraryInterface.runCalls {σ : Type} (L : LibraryInterface σ) (s : σ) :
    List LibCall → List LibOut × σ
  | [] => ([], s)
  | c :: cs =>
    ((L.step c s).1 :: (L.runCalls (L.step c s).2 cs).1, (L.runCalls (L.step c s).2 cs).2)

/-- The transform `SortedViewLibrary` applies to a single observable output:
only `get_books` snapshots are re-ordered. -/
def sortOut : LibOut → LibOut
  | .books bs => .books (sortBooks bs)
  | o => o

lemma sortedView_step_out {σ : Type} (L : LibraryInterface σ) (c : LibCall) (s : σ) :
    ((SortedViewLibrary L).step c s).1 = sortOut (L.step c s).1 := by
  cases c <;> rfl

lemma sortedView_step_state {σ : Type} (L : LibraryInterface σ) (c : LibCall) (s : σ) :
    ((SortedViewLibrary L).step c s).2 = (L.step c s).2 := by
  cases c <;> rfl

lemma sortedView_runCalls {σ : Type} (L : LibraryInterface σ) (s : σ) (cs : List LibCall) :
    ((SortedViewLibrary L).runCalls s cs).1 = ((L.runCalls s cs).1).map sortOut
    ∧ ((SortedViewLibrary L).runCalls s cs).2 = (L.runCalls s cs).2 := by
  induction cs generalizing s with
  | nil => exact ⟨rfl, rfl⟩
  | cons c cs ih =>
    simp only [LibraryInterface.runCalls, sortedView_step_out, sortedView_step_state,
      List.map_cons, (ih (L.step c s).2).1, (ih (L.step c s).2).2, and_self]

/-- C3: `SortedViewLibrary` is transparent: over any wrapped store, `add_book`
and `remove_book` return exactly the wrapped store's results and state
changes; `get_books` is a permutation of the wrapped snapshot, sorted
ascending by (lowered title, year); over any whole call sequence the final
state is identical to the wrapped store's and the outputs differ only by the
re-ordering of the `get_books` snapshots. -/
theorem sorted_view_transparency {σ : Type} (L : LibraryInterface σ)
    (b : Book) (t : List Char) (s : σ) (cs : List LibCall) :
    (SortedViewLibrary L).add_book b s = L.add_book b s
    ∧ (SortedViewLibrary L).remove_book t s = L.remove_book t s
    ∧ List.Perm ((SortedViewLibrary L).get_books s) (L.get_books s)
    ∧ List.Sorted bookLe ((SortedViewLibrary L).get_books s)
    ∧ ((SortedViewLibrary L).runCalls s cs).1 = ((L.runCalls s cs).1).map sortOut
    ∧ ((SortedViewLibrary L).runCalls s cs).2 = (L.runCalls s cs).2 :=
  ⟨rfl, rfl, List.perm_insertionSort bookLe (L.get_books s),
    List.sorted_insertionSort bookLe (L.get_books s),
    (sortedView_runCalls L s cs).1, (sortedView_runCalls L s cs).2⟩

/-- The line printed by `LoggingLibraryDecorator.add_book`. -/
def logAddLine (b : Book) : List Char :=
  "[LOG] add: ".data ++ Book.str b

/-- The line printed by `LoggingLibraryDecorator.remove_book`. -/
def logRemoveLine (t : List Char) : List Char :=
  "[LOG] remove: \"".data ++ t ++ "\"".data

/-- `LoggingLibraryDecorator`: delegates every operation unchanged and prints
a log line around `add_book`/`remove_book`.  The print side channel is
modelled as a list of emitted lines carried next to the inner state. -/
def LoggingLibraryDecorator {σ : Type} (inner : LibraryInterface σ) :
    LibraryInterface (σ × List (List Char)) where
  add_book b s := (inner.add_book b s.1, s.2 ++ [logAddLine b])
  remove_book t s := ((inner.remove_book t s.1).1, ((inner.remove_book t s.1).2, s.2 ++ [logRemoveLine t]))
  get_books s := inner.get_books s.1

lemma logging_step_out {σ : Type} (L : LibraryInterface σ) (c : LibCall) (s : σ)
    (log : List (List Char)) :
    ((LoggingLibraryDecorator L).step c (s, log)).1 = (L.step c s).1 := by
  cases c <;> rfl

lemma logging_step_state {σ : Type} (L : LibraryInterface σ) (c : LibCall) (s : σ)
    (log : List (List Char)) :
    ((LoggingLibraryDecorator L).step c (s, log)).2.1 = (L.step c s).2 := by
  cases c <;> rfl

lemma logging_runCalls {σ : Type} (L : LibraryInterface σ) (s : σ)
    (log : List (List Char)) (cs : List LibCall) :
    ((LoggingLibraryDecorator L).runCalls (s, log) cs).1 = (L.runCalls s cs).1
    ∧ ((LoggingLibraryDecorator L).runCalls (s, log) cs).2.1 = (L.runCalls s cs).2 := by
  induction cs generalizing s log with
  | nil => exact ⟨rfl, rfl⟩
  | cons c cs ih =>
    rcases hs : (LoggingLibraryDecorator L).step c (s, log) with ⟨o, s', log'⟩
    have ho : o = (L.step c s).1 := by rw [← logging_step_out L c s log, hs]
    have hs' : s' = (L.step c s).2 := by rw [← logging_step_state L c s log, hs]
    simp only [LibraryInterface.runCalls, hs, ho, hs']
    exact ⟨by rw [(ih (L.step c s).2 log').1], (ih (L.step c s).2 log').2⟩

/-- C4: `LoggingLibraryDecorator` over the in-memory store is observationally
identical to the bare in-memory store: on every call sequence it produces
exactly the same outputs and drives the store through exactly the same
states; only the emitted log lines (the second state component) differ. -/
theorem logging_decorator_equiv (s : List Book) (log : List (List Char))
    (cs : List LibCall) :
    ((LoggingLibraryDecorator InMemoryLibrary).runCalls (s, log) cs).1
        = (InMemoryLibrary.runCalls s cs).1
    ∧ ((LoggingLibraryDecorator InMemoryLibrary).runCalls (s, log) cs).2.1
        = (InMemoryLibrary.runCalls s cs).2 :=
  logging_runCalls InMemoryLibrary s log cs

/-- Strip leading and trailing whitespace, as Python `int(str)` does before
parsing. -/
def pyStrip (s : List Char) : List Char :=
  ((s.dropWhile Char.isWhitespace).reverse.dropWhile Char.isWhitespace).reverse

/-- Numeric value of a block of decimal digits. -/
def digitsVal (ds : List Char) : Nat :=
  ds.foldl (fun acc c => 10 * acc + (c.toNat - '0'.toNat)) 0

/-- A non-empty all-digit block, or `none`. -/
def pyIntCore (ds : List Char) : Option Nat :=
  if ds.isEmpty || !(ds.all Char.isDigit) then none else some (digitsVal ds)

/-- Model of the builtin `int(str)` on the decimal strings the program feeds
it: optional surrounding whitespace, an optional sign, then decimal digits;
anything else raises `ValueError`, modelled as `none`. -/
def pyInt (s : List Char) : Option Int :=
  match pyStrip s with
  | '+' :: ds => (pyIntCore ds).map (fun n => (n : Int))
  | '-' :: ds => (pyIntCore ds).map (fun n => -(n : Int))
  | ds => (pyIntCore ds).map (fun n => (n : Int))

/-- The `ValueError` message raised by `LibraryManager._parse_year`. -/
def yearMsg : List Char := "Year must be a positive integer.".data

/-- `LibraryManager._parse_year`: parse the string as an integer; a parse
failure or a non-positive value raises `ValueError("Year must be a positive
integer.")`. -/
def LibraryManager.parse_year (value : List Char) : Except (List Char) Int :=
  match pyInt value with
  | none => .error yearMsg
  | some year => if year ≤ 0 then .error yearMsg else .ok year

/-- `LibraryManager.add_book`: validate the year, then construct the `Book`
and add it to the held library; a validation failure propagates and the
library is never touched. -/
def LibraryManager.add_book {σ : Type} (L : LibraryInterface σ)
    (title author year_raw : List Char) (s : σ) : Except (List Char) σ :=
  match LibraryManager.parse_year year_raw with
  | .error e => .error e
  | .ok year => .ok (L.add_book ⟨title, author, year⟩ s)

/-- One request handled by `LibraryManager` (as issued by the CLI loop). -/
inductive ManagerCall where
  | add (title author year_raw : List Char)
  | remove (title : List Char)

/-- Effect of one manager request on the store state.  The CLI loop catches
the `ValueError` from `add` and continues, so a failed `add` leaves the
state unchanged. -/
def LibraryManager.step {σ : Type} (L : LibraryInterface σ) (s : σ) :
    ManagerCall → σ
  | .add t a raw =>
    match LibraryManager.add_book L t a raw s with
    | .error _ => s
    | .ok s' => s'
  | .remove t => (L.remove_book t s).2

/-- A store populated only through the manager: fold the requests over the
initial state. -/
def LibraryManager.run {σ : Type} (L : LibraryInterface σ) (s : σ)
    (cs : List ManagerCall) : σ :=
  cs.foldl (fun st c => LibraryManager.step L st c) s

lemma parse_year_pos (raw : List Char) (y : Int)
    (h : LibraryManager.parse_year raw = .ok y) : 0 < y := by
  unfold LibraryManager.parse_year at h
  split at h
  · exact Except.noConfusion h
  · split at h
    · exact Except.noConfusion h
    · cases h
      next hv => exact lt_of_not_le hv

/-- C1 counterexample: the validation failure carries the exact message
"Year must be a positive integer." (capital Y, trailing period), not the
claimed "year must be a positive integer". -/
theorem addRecord_message_cex :
    LibraryManager.add_book InMemoryLibrary ['t'] ['a'] ['a','b','c'] ([] : List Book)
      = .error "Year must be a positive integer.".data
    ∧ "Year must be a positive integer.".data ≠ "year must be a positive integer".data :=
  ⟨rfl, by decide⟩

/-- C1 (amended to the code's exact message): for every title, author and
year string, `add_book` fails with `ValueError("Year must be a positive
integer.")` when the year string does not parse as an integer or parses to a
value ≤ 0 (in particular on "0", "-3" and "abc"), and succeeds on a string
parsing to a positive integer such as "1999", appending a `Book` whose year
is that integer. -/
theorem addRecord_validation (title author raw : List Char) (s : List Book) :
    ((pyInt raw = none ∨ ∃ y, pyInt raw = some y ∧ y ≤ 0) →
      LibraryManager.add_book InMemoryLibrary title author raw s = .error yearMsg)
    ∧ (∀ y : Int, pyInt raw = some y → 0 < y →
      LibraryManager.add_book InMemoryLibrary title author raw s
        = .ok (s ++ [⟨title, author, y⟩]))
    ∧ LibraryManager.add_book InMemoryLibrary title author ['0'] s = .error yearMsg
    ∧ LibraryManager.add_book InMemoryLibrary title author ['-','3'] s = .error yearMsg
    ∧ LibraryManager.add_book InMemoryLibrary title author ['a','b','c'] s = .error yearMsg
    ∧ LibraryManager.add_book InMemoryLibrary title author ['1','9','9','9'] s
        = .ok (s ++ [⟨title, author, 1999⟩]) := by
  refine ⟨?_, ?_, rfl, rfl, rfl, rfl⟩
  · intro h
    unfold LibraryManager.add_book LibraryManager.parse_year
    rcases h with h | ⟨y, hy, hle⟩
    · rw [h]
    · simp only [hy, if_pos hle]
  · intro y hy hpos
    unfold LibraryManager.add_book LibraryManager.parse_year
    simp only [hy, if_neg (not_le.mpr hpos)]
    rfl

/-- Witness for C1: concrete failure on "abc" and success on "1999". -/
theorem addRecord_validation_witness :
    LibraryManager.add_book InMemoryLibrary ['t'] ['a'] ['a','b','c'] [] = .error yearMsg
    ∧ LibraryManager.add_book InMemoryLibrary ['t'] ['a'] ['1','9','9','9'] []
        = .ok [⟨['t'], ['a'], 1999⟩] :=
  ⟨(addRecord_validation ['t'] ['a'] ['a','b','c'] []).1 (Or.inl rfl),
    (addRecord_validation ['t'] ['a'] ['1','9','9','9'] []).2.1 1999 rfl (by decide)⟩

/-- C9: `add_book` is atomic on validation failure: if `_parse_year` raises,
the manager re-raises that error, no `Book` reaches the store, and (with the
CLI catching the error) the store state is exactly what it was before. -/
theorem add_book_atomic (t a raw : List Char) (s : List Book) (e : List Char)
    (h : LibraryManager.parse_year raw = .error e) :
    LibraryManager.add_book InMemoryLibrary t a raw s = .error e
    ∧ LibraryManager.step InMemoryLibrary s (.add t a raw) = s := by
  have h1 : LibraryManager.add_book InMemoryLibrary t a raw s = .error e := by
    unfold LibraryManager.add_book
    rw [h]
  exact ⟨h1, by simp only [LibraryManager.step, h1]⟩

/-- Witness for C9: the unparseable year string "x" fails and leaves an
empty store empty. -/
theorem add_book_atomic_witness :
    LibraryManager.add_book InMemoryLibrary ['t'] ['a'] ['x'] [] = .error yearMsg
    ∧ LibraryManager.step InMemoryLibrary [] (.add ['t'] ['a'] ['x']) = [] :=
  add_book_atomic ['t'] ['a'] ['x'] [] yearMsg rfl

/-- C7: every `Book` constructed through the manager's validated path has a
positive year, so a store whose initial records all have positive years and
which is driven only through manager requests contains only records with
positive years (the store itself never re-validates). -/
theorem manager_year_invariant (cs : List ManagerCall) (s : List Book)
    (hs : ∀ b ∈ s, 0 < b.year) (b : Book)
    (hb : b ∈ LibraryManager.run InMemoryLibrary s cs) : 0 < b.year := by
  induction cs generalizing s with
  | nil => exact hs b hb
  | cons c cs ih =>
    refine ih (LibraryManager.step InMemoryLibrary s c) ?_ hb
    intro b' hb'
    cases c with
    | add t a raw =>
      cases hp : LibraryManager.parse_year raw with
      | error e =>
        have hstep : LibraryManager.step InMemoryLibrary s (.add t a raw) = s := by
          have h1 : LibraryManager.add_book InMemoryLibrary t a raw s = .error e := by
            unfold LibraryManager.add_book
            rw [hp]
          simp only [LibraryManager.step, h1]
        rw [hstep] at hb'
        exact hs b' hb'
      | ok y =>
        have hstep : LibraryManager.step InMemoryLibrary s (.add t a raw)
            = s ++ [⟨t, a, y⟩] := by
          have h1 : LibraryManager.add_book InMemoryLibrary t a raw s
              = .ok (s ++ [⟨t, a, y⟩]) := by
            unfold LibraryManager.add_book
            rw [hp]
            rfl
          simp only [LibraryManager.step, h1]
        rw [hstep] at hb'
        rcases List.mem_append.mp hb' with h | h
        · exact hs b' h
        · rw [List.mem_singleton.mp h]
          exact parse_year_pos raw y hp
    | remove t =>
      exact hs b' (removeFirst_subset t s b' hb')

/-- Witness for C7: after adding "1999" through the manager to an empty
store, the stored record has a positive year. -/
theorem manager_year_invariant_witness : 0 < (Book.mk ['t'] ['a'] 1999).year :=
  manager_year_invariant [.add ['t'] ['a'] ['1','9','9','9']] [] (by simp)
    ⟨['t'], ['a'], 1999⟩ (by decide)

/-- A minimal model of Python's object heap for list objects: numbered cells
holding record sequences, plus the next fresh cell id.  This is the level at
which the copy made by `return list(self._books)` is visible. -/
structure PyHeap where
  cells : Nat → List Book
  next : Nat

/-- In-place mutation of the list object in cell `i` (Python-side
`lst.append`, `del lst[idx]`, slice assignment, ...). -/
def PyHeap.write (h : PyHeap) (i : Nat) (v : List Book) : PyHeap :=
  ⟨fun j => if j = i then v else h.cells j, h.next⟩

/-- Allocation of a fresh list object holding `v`. -/
def PyHeap.alloc (h : PyHeap) (v : List Book) : Nat × PyHeap :=
  (h.next, ⟨fun j => if j = h.next then v else h.cells j, h.next + 1⟩)

/-- Heap-level `InMemoryLibrary.get_books`: `return list(self._books)`
allocates a fresh list object carrying a copy of the store's current
contents and returns a reference to it. -/
def heapGetBooks (self : Nat) (h : PyHeap) : Nat × PyHeap :=
  h.alloc (h.cells self)

/-- Heap-level `InMemoryLibrary.add_book`: append in place to the store's
own list object. -/
def heapAddBook (self : Nat) (b : Book) (h : PyHeap) : PyHeap :=
  h.write self (h.cells self ++ [b])

/-- Heap-level `InMemoryLibrary.remove_book`: delete the first
case-insensitive match in place. -/
def heapRemoveBook (self : Nat) (t : List Char) (h : PyHeap) : Bool × PyHeap :=
  ((removeFirst t (h.cells self)).1, h.write self (removeFirst t (h.cells self)).2)

lemma PyHeap.write_same (h : PyHeap) (i : Nat) (v : List Book) :
    (h.write i v).cells i = v := by
  simp [PyHeap.write]

lemma PyHeap.write_other (h : PyHeap) (i j : Nat) (v : List Book) (hij : j ≠ i) :
    (h.write i v).cells j = h.cells j := by
  simp [PyHeap.write, hij]

/-- C8: `get_books` returns a snapshot, not a live alias of the store's
internal list: the returned object is a fresh cell holding the current
records; mutating the returned object does not change the store's list, and
a later `add_book` or `remove_book` on the store does not change the
snapshot. -/
theorem get_books_snapshot (self : Nat) (h : PyHeap) (hv : self < h.next)
    (v : List Book) (b : Book) (t : List Char) :
    (heapGetBooks self h).1 ≠ self
    ∧ (heapGetBooks self h).2.cells (heapGetBooks self h).1 = h.cells self
    ∧ ((heapGetBooks self h).2.write (heapGetBooks self h).1 v).cells self = h.cells self
    ∧ (heapAddBook self b (heapGetBooks self h).2).cells (heapGetBooks self h).1
        = h.cells self
    ∧ (heapRemoveBook self t (heapGetBooks self h).2).2.cells (heapGetBooks self h).1
        = h.cells self := by
  have hne : h.next ≠ self := fun he => absurd (he ▸ hv) (lt_irrefl h.next)
  have hr1 : (heapGetBooks self h).1 = h.next := rfl
  have hcell : ∀ j, (heapGetBooks self h).2.cells j
      = if j = h.next then h.cells self else h.cells j := fun j => rfl
  refine ⟨hr1 ▸ hne, ?_, ?_, ?_, ?_⟩
  · rw [hr1, hcell h.next, if_pos rfl]
  · rw [hr1, PyHeap.write_other _ h.next self v (fun he => hne he.symm),
      hcell self, if_neg (fun he => hne he.symm)]
  · unfold heapAddBook
    rw [hr1, PyHeap.write_other _ self h.next _ hne, hcell h.next, if_pos rfl]
  · unfold heapRemoveBook
    rw [hr1, PyHeap.write_other _ self h.next _ hne, hcell h.next, if_pos rfl]

/-- Witness for C8: one store cell in a one-object heap. -/
theorem get_books_snapshot_witness :
    (heapGetBooks 0 ⟨fun _ => [], 1⟩).1 ≠ 0
    ∧ (heapGetBooks 0 ⟨fun _ => [], 1⟩).2.cells (heapGetBooks 0 ⟨fun _ => [], 1⟩).1
        = PyHeap.cells ⟨fun _ => [], 1⟩ 0
    ∧ ((heapGetBooks 0 ⟨fun _ => [], 1⟩).2.write (heapGetBooks 0 ⟨fun _ => [], 1⟩).1
          [⟨['z'], ['z'], 1⟩]).cells 0 = PyHeap.cells ⟨fun _ => [], 1⟩ 0
    ∧ (heapAddBook 0 ⟨['z'], ['z'], 1⟩ (heapGetBooks 0 ⟨fun _ => [], 1⟩).2).cells
          (heapGetBooks 0 ⟨fun _ => [], 1⟩).1 = PyHeap.cells ⟨fun _ => [], 1⟩ 0
    ∧ (heapRemoveBook 0 ['z'] (heapGetBooks 0 ⟨fun _ => [], 1⟩).2).2.cells
          (heapGetBooks 0 ⟨fun _ => [], 1⟩).1 = PyHeap.cells ⟨fun _ => [], 1⟩ 0 :=
  get_books_snapshot 0 ⟨fun _ => [], 1⟩ (by decide) [⟨['z'], ['z'], 1⟩]
    ⟨['z'], ['z'], 1⟩ ['z']
